import Mathlib

/-!
# watch.c: a shallow embedding and its properties

The program parses a few flags, joins the remaining arguments with single
spaces into one shell command and then runs that command forever:
fork, wait, report a non-zero exit status, sleep, repeat.

Conventions of the embedding:

* a C string is the list of its characters before the terminating NUL, one
  `Char` for each `char`;
* a heap buffer holding a C string is its capacity in bytes together with
  the string it currently holds; a write past the capacity has no defined
  result and is modelled by `none`;
* `int` is a 32-bit two's complement integer, modelled by `Int` with explicit
  wrapping where the source does arithmetic on values it does not bound.
-/

namespace Watch

/-! ## C strings and buffers -/

/-- The characters of a C string, without the terminating NUL. -/
abbrev CStr := List Char

/-- The library function `strlen`. -/
def strlen (s : CStr) : Nat := s.length

/-- A heap buffer that holds a NUL-terminated string: `cap` bytes were
allocated, `str` is what the buffer holds up to its first NUL. -/
structure Buf where
  cap : Nat
  str : CStr
deriving DecidableEq, Repr

/-- The call `calloc(1, n)`: `n` zero bytes, that is the empty string in a
buffer of capacity `n`. -/
def calloc (n : Nat) : Buf := ⟨n, []⟩

/-- The library function `strcat(buf, s)`: appends `s` and a NUL after the
string held by `buf`.  It writes `strlen(s) + 1` bytes starting at offset
`strlen(buf)`; when these do not fit into the allocation the behaviour is
undefined, which is `none` here. -/
def strcat (buf : Buf) (s : CStr) : Option Buf :=
  if strlen buf.str + strlen s + 1 ≤ buf.cap then
    some ⟨buf.cap, buf.str ++ s⟩
  else
    none

/-! ## `length` and `join` (watch.c, lines 112-139) -/

/-- The function `length(strs, len)`: the string lengths of the first `len`
entries of `strs` summed up, plus one. -/
def length (strs : List CStr) (len : Nat) : Nat :=
  (strs.take len).foldl (fun n s => n + strlen s) 0 + 1

/-- The `while ((str = *strs++))` loop of `join`: every entry up to the NULL
terminator is appended to the buffer, followed by `val` when another entry
comes after it (`if (*strs)`). -/
def joinLoop (val : CStr) : List CStr → Buf → Option Buf
  | [], buf => some buf
  | str :: strs, buf =>
    match strcat buf str with
    | none => none
    | some buf1 =>
      if strs ≠ [] then
        match strcat buf1 val with
        | none => none
        | some buf2 => joinLoop val strs buf2
      else
        joinLoop val strs buf1

/-- The number of bytes `join` asks `calloc` for; `len` is already
decremented when `length` is called with it. -/
def joinAlloc (strs : List CStr) (len : Nat) (val : CStr) : Nat :=
  let len := len - 1
  length strs len + len * strlen val + 1

/-- The function `join(strs, len, val)`.  The array `strs` is NULL-terminated
and is given here by its entries; `len` is the caller's count of them
(`main` passes `argc`, at least 1).  The result is the string in the returned
buffer, or `none` when a `strcat` wrote outside the allocation. -/
def join (strs : List CStr) (len : Nat) (val : CStr) : Option CStr :=
  let buf := calloc (joinAlloc strs len val)
  (joinLoop val strs buf).map Buf.str

/-- The bytes a joined string occupies, its NUL included: what the buffer
of `join` has to hold. -/
def joinNeeded (strs : List CStr) (val : CStr) : Nat :=
  (strs.map strlen).sum + (strs.length - 1) * strlen val + 1

/-- Splitting a string at every occurrence of the space character. -/
def splitOnSpace (s : CStr) : List CStr := s.splitOn ' '


/-! ## Machine integers -/

/-- The least value of a 32-bit `int`. -/
def INT_MIN : Int := -2147483648

/-- The greatest value of a 32-bit `int`. -/
def INT_MAX : Int := 2147483647

/-- Whether a value is representable in a 32-bit `int`. -/
def inInt32 (x : Int) : Bool := decide (INT_MIN ≤ x) && decide (x ≤ INT_MAX)

/-- Reduction of a mathematical integer to the 32-bit two's complement value
with the same low 32 bits. -/
def wrapInt32 (x : Int) : Int := (x + 2147483648) % 4294967296 - 2147483648

/-! ## `atoi` (C library) -/

/-- The library predicate `isspace` in the C locale. -/
def isspace (c : Char) : Bool :=
  c = ' ' || c = '\t' || c = '\n' || c = '\x0b' || c = '\x0c' || c = '\r'

/-- The value of a decimal digit character. -/
def digitVal (c : Char) : Nat := c.toNat - 48

/-- The digit loop of `atoi`: reads decimal digits into the accumulator and
stops at the first character that is not a digit. -/
def atoiDigits : CStr → Nat → Nat
  | [], acc => acc
  | c :: cs, acc => if c.isDigit then atoiDigits cs (acc * 10 + digitVal c) else acc

/-- The integer at the start of a string, as `strtol` reads it in base 10:
white space is skipped, an optional sign is taken, decimal digits are read
and what follows them is ignored. -/
def signedDigits (s : CStr) : Int :=
  match s.dropWhile isspace with
  | '-' :: cs => -(atoiDigits cs 0 : Int)
  | '+' :: cs => (atoiDigits cs 0 : Int)
  | cs => (atoiDigits cs 0 : Int)

/-- The least value of a 64-bit `long`. -/
def LONG_MIN : Int := -9223372036854775808

/-- The greatest value of a 64-bit `long`. -/
def LONG_MAX : Int := 9223372036854775807

/-- The library function `strtol(s, NULL, 10)` with a 64-bit `long`: a value
outside the range of `long` is replaced by `LONG_MIN` or `LONG_MAX`. -/
def strtol (s : CStr) : Int :=
  if signedDigits s < LONG_MIN then LONG_MIN
  else if LONG_MAX < signedDigits s then LONG_MAX
  else signedDigits s

/-- The library function `atoi` as the GNU C library defines it,
`(int) strtol(s, NULL, 10)`: the conversion to `int` keeps the low 32 bits
of the `long`. -/
def atoi (s : CStr) : Int := wrapInt32 (strtol s)

/-! ## `milliseconds` and the interval expression (watch.c, lines 75-83, 174-179) -/

/-- A `const char *` that points at a C string: `str` is the string, `before`
the bytes stored in front of it in the same memory region, the nearest
first. -/
structure StrPtr where
  before : List Char
  str : CStr
deriving DecidableEq, Repr

/-- The read `p[i]`: a character of the string, its terminating NUL, or for
negative `i` a byte in front of the string.  A read outside the known region
is `none`. -/
def StrPtr.read (p : StrPtr) (i : Int) : Option Char :=
  if 0 ≤ i then
    if i.toNat < p.str.length then p.str.get? i.toNat
    else if i.toNat = p.str.length then some '\x00'
    else none
  else p.before.get? (-i - 1).toNat

/-- The function `milliseconds(str)`:
`'m' == str[len-2] && 's' == str[len-1]` with `len = strlen(str)`.  The
second read happens only when the first comparison holds. -/
def milliseconds (p : StrPtr) : Option Bool :=
  let len : Int := strlen p.str
  match p.read (len - 2) with
  | none => none
  | some a =>
    if 'm' = a then
      match p.read (len - 1) with
      | none => none
      | some b => some (decide ('s' = b))
    else some false

/-- The expression `milliseconds(optarg) ? atoi(optarg) : atoi(optarg) * 1000`
of `main`; the product is an `int` product and keeps its low 32 bits. -/
def parseInterval (p : StrPtr) : Option Int :=
  match milliseconds p with
  | none => none
  | some true => some (atoi p.str)
  | some false => some (wrapInt32 (atoi p.str * 1000))

/-- The number a string of decimal digits denotes. -/
def decimalValue (digits : CStr) : Nat :=
  Nat.ofDigits 10 (digits.reverse.map digitVal)

/-- Whether a string consists of decimal digits only. -/
def allDigits (s : CStr) : Bool := s.all Char.isDigit

/-- The sign a decimal integer may start with: none, `-` or `+`. -/
def isSign (sgn : CStr) : Bool := decide (sgn = [] ∨ sgn = ['-'] ∨ sgn = ['+'])

/-- The integer a sign and a string of decimal digits denote. -/
def intValue (sgn digits : CStr) : Int :=
  if sgn = ['-'] then -(decimalValue digits : Int) else (decimalValue digits : Int)

/-! ## `mssleep` (watch.c, lines 85-97) -/

/-- The fields of a `struct timespec`. -/
structure Timespec where
  tv_sec : Int
  tv_nsec : Int
deriving DecidableEq, Repr

/-- The request `mssleep(ms)` hands to `nanosleep`.  Every arithmetic result
is checked against the 32-bit range, the narrowest that `int`, `long` and
`time_t` can have; `none` is an overflow. -/
def mssleepReq (ms : Int) : Option Timespec :=
  let sec := Int.tdiv ms 1000
  let prod := sec * 1000
  if ¬ inInt32 prod then none else
  let ms1 := ms - prod
  if ¬ inInt32 ms1 then none else
  let nsec := ms1 * 1000000
  if ¬ inInt32 nsec then none else
  some ⟨sec, nsec⟩

/-- Whether `nanosleep` accepts a request; it fails with `EINVAL` when
`tv_sec` is negative or `tv_nsec` lies outside 0 to 999999999. -/
def validTimespec (req : Timespec) : Bool :=
  decide (0 ≤ req.tv_sec) && decide (0 ≤ req.tv_nsec) && decide (req.tv_nsec ≤ 999999999)

/-- Whether the call `mssleep(ms)` returns.  Its loop
`while(-1 == nanosleep(&req, &req)) ;` ends when `nanosleep` returns 0.  With
a request `nanosleep` accepts, each failed call was cut short by a signal and
has stored the time that is left in `req`, so after the last of finitely many
signals the sleep completes.  A request it does not accept fails in every
call, and the loop never ends. -/
def mssleepReturns (ms : Int) : Bool :=
  match mssleepReq ms with
  | some req => validTimespec req
  | none => false

/-! ## `getopt_long` (C library)

The model follows the GNU implementation in its default mode: options may
stand anywhere on the command line, the arguments that are not options are
moved behind them, and `--` ends the options.  One call of `getopt_long`
yields one `Event`, or has no defined behaviour, which is `none`;
`getoptAll` lists the calls up to the one that returns `-1` or the first one
without defined behaviour, together with the operands left at
`argv + optind`. -/

/-- An entry of the `longopts` table; `flag` is `NULL` in every entry. -/
structure LongOpt where
  name : CStr
  has_arg : Bool
  val : Char
deriving DecidableEq, Repr

/-- The table `longopts` of watch.c.  It has these five entries and no
all-zero entry after them. -/
def longopts : List LongOpt :=
  [⟨"quiet".toList, false, 'q'⟩,
   ⟨"halt".toList, false, 'x'⟩,
   ⟨"interval".toList, true, 'i'⟩,
   ⟨"version".toList, false, 'v'⟩,
   ⟨"help".toList, false, 'h'⟩]

/-- The short option string `main` passes to `getopt_long`. -/
def optstring : CStr := "hqxvi:".toList

/-- What one call of `getopt_long` reports: the value it returns, `'?'` for
an error, and `optarg`. -/
structure Event where
  ch : Char
  optarg : Option StrPtr
deriving DecidableEq, Repr

/-- Search of an option character in an option string: `none` when it is
absent, otherwise whether a colon follows it. -/
def shortLookup (c : Char) : CStr → Option Bool
  | [] => none
  | o :: rest => if o = c then some (rest.head? = some ':') else shortLookup c rest

/-- Whether `c` is a short option of watch and takes an argument. -/
def shortHasArg (c : Char) : Option Bool :=
  if c = ':' ∨ c = ';' then none else shortLookup c optstring

/-- The events of the characters `cs` of an argument `-...`; `before` are the
characters of the argument already passed, the nearest first, and `next` is
the command line argument that follows, if any. -/
def shortEvents (next : Option CStr) : List Char → CStr → List Event
  | _, [] => []
  | before, c :: cs =>
    match shortHasArg c with
    | none => ⟨'?', none⟩ :: shortEvents next (c :: before) cs
    | some false => ⟨c, none⟩ :: shortEvents next (c :: before) cs
    | some true =>
      if cs ≠ [] then [⟨c, some ⟨c :: before, cs⟩⟩]
      else
        match next with
        | some n => [⟨c, some ⟨'\x00' :: c :: before, n⟩⟩]
        | none => [⟨'?', none⟩]

/-- Whether the characters of an argument `-...` end in an option that takes
the following command line argument as its argument. -/
def shortUsesNext : CStr → Bool
  | [] => false
  | c :: cs =>
    match shortHasArg c with
    | some true => decide (cs = [])
    | _ => shortUsesNext cs

/-- Search of a long option name in `longopts`.  The search of
`getopt_long` walks the table entry by entry and stops at the first entry
with exactly this name.  It would also stop at an all-zero entry; the table
of watch.c has none, so for every other name, an abbreviation included, the
search reads past the last entry and has no defined result: `none`. -/
def longLookup (name : CStr) : Option LongOpt :=
  longopts.find? (fun o => decide (o.name = name))

/-- The event of an argument `--body` and whether it takes the following
command line argument as its argument; `none` when the search of the name
has no defined result. -/
def longEvent (body : CStr) (next : Option CStr) : Option (Event × Bool) :=
  let name := body.takeWhile (fun c => c ≠ '=')
  let tail := body.dropWhile (fun c => c ≠ '=')
  match longLookup name with
  | none => none
  | some o =>
    match tail with
    | _ :: value =>
      if o.has_arg then
        some (⟨o.val, some ⟨'=' :: (name.reverse ++ ['-', '-']), value⟩⟩, false)
      else some (⟨'?', none⟩, false)
    | [] =>
      if o.has_arg then
        match next with
        | some n => some (⟨o.val, some ⟨'\x00' :: (body.reverse ++ ['-', '-']), n⟩⟩, true)
        | none => some (⟨'?', none⟩, false)
      else some (⟨o.val, none⟩, false)

/-- The kinds of command line argument `getopt_long` tells apart. -/
inductive ArgKind
  /-- the argument `--` -/
  | endOfOptions
  /-- an argument `--body` -/
  | long (body : CStr)
  /-- an argument `-chars` with at least one character after the dash -/
  | short (chars : CStr)
  /-- any other argument, the lone `-` included -/
  | operand
deriving DecidableEq, Repr

/-- The kind of a command line argument. -/
def classify : CStr → ArgKind
  | ['-', '-'] => .endOfOptions
  | '-' :: '-' :: body => .long body
  | '-' :: c :: cs => .short (c :: cs)
  | _ => .operand

/-- All calls of `getopt_long` on the arguments after the program name: what
the calls report, in order, and the operands that remain at `argv + optind`.
A call without defined behaviour is `none` and ends the list. -/
def getoptAll : List CStr → List (Option Event) × List CStr
  | [] => ([], [])
  | [e] =>
    match classify e with
    | .endOfOptions => ([], [])
    | .long body => ([(longEvent body none).map Prod.fst], [])
    | .short cs => ((shortEvents none ['-'] cs).map some, [])
    | .operand => ([], [e])
  | e :: n :: rest =>
    match classify e with
    | .endOfOptions => ([], n :: rest)
    | .long body =>
      match longEvent body (some n) with
      | none => ([none], [])
      | some r =>
        let more := if r.2 then getoptAll rest else getoptAll (n :: rest)
        (some r.1 :: more.1, more.2)
    | .short cs =>
      let more := if shortUsesNext cs then getoptAll rest else getoptAll (n :: rest)
      ((shortEvents (some n) ['-'] cs).map some ++ more.1, more.2)
    | .operand =>
      let more := getoptAll (n :: rest)
      (more.1, e :: more.2)

/-! ## `main` up to the execution loop (watch.c, lines 145-199) -/

/-- The macro `DEFAULT_INTERVAL`. -/
def DEFAULT_INTERVAL : Int := 1000

/-- The variables the option loop sets: the local `interval` and the globals
`quiet` and `halt`. -/
structure Config where
  interval : Int
  quiet : Bool
  halt : Bool
deriving DecidableEq, Repr

/-- What the program prints before it exits ahead of the loop. -/
inductive Message
  | usage
  | version
  | cmdRequired
deriving DecidableEq, Repr

/-- How `main` gets on before the label `loop`. -/
inductive MainResult
  /-- the process exits with `status` after printing `msg` -/
  | exit (status : Nat) (msg : Message)
  /-- a read or write outside an object: no defined behaviour -/
  | undefined
  /-- the label `loop` is reached with these settings and the string `val` -/
  | loop (cfg : Config) (val : CStr)
deriving DecidableEq, Repr

/-- The `while ((ch = getopt_long(...)) != -1) switch (ch)` loop of `main`. -/
def optLoop (cfg : Config) : List (Option Event) → Except MainResult Config
  | [] => .ok cfg
  | none :: _ => .error .undefined
  | some ev :: evs =>
    if ev.ch = 'h' then .error (.exit 1 .usage)
    else if ev.ch = 'q' then optLoop { cfg with quiet := true } evs
    else if ev.ch = 'x' then optLoop { cfg with halt := true } evs
    else if ev.ch = 'v' then .error (.exit 1 .version)
    else if ev.ch = 'i' then
      match ev.optarg with
      | none => .error .undefined
      | some p =>
        match parseInterval p with
        | none => .error .undefined
        | some n => optLoop { cfg with interval := n } evs
    else .error (.exit 1 .usage)

/-- What the part of `main` ahead of `join` makes of a command line. -/
inductive Parsed
  /-- the program stops: it exits, or it has no defined behaviour -/
  | refused (r : MainResult)
  /-- the command line is accepted with these settings and these operands at
  `argv + optind` -/
  | accepted (cfg : Config) (operands : List CStr)
deriving DecidableEq, Repr

/-- The function `main` from its start to the check `if (!argc)` (lines
147-195), on the command line arguments that follow the program name
(`argc` is their number plus one). -/
def parseArgs (args : List CStr) : Parsed :=
  if args = [] then .refused (.exit 1 .usage)
  else
    let parsed := getoptAll args
    match optLoop ⟨DEFAULT_INTERVAL, false, false⟩ parsed.1 with
    | .error r => .refused r
    | .ok cfg =>
      if parsed.2 = [] then .refused (.exit 1 .cmdRequired)
      else .accepted cfg parsed.2

/-- The function `main` up to the label `loop`: an accepted command line has
its operands joined with `join(argv, argc, " ")`. -/
def main (args : List CStr) : MainResult :=
  match parseArgs args with
  | .refused r => r
  | .accepted cfg operands =>
    match join operands operands.length [' '] with
    | none => .undefined
    | some val => .loop cfg val

/-- A command line made of the flags `-q`, `-x`, `-i <n>` and their long
forms `--quiet`, `--halt`, `--interval <n>` only. -/
def onlyFlags : List CStr → Bool
  | [] => true
  | a :: rest =>
    if a = "-q".toList ∨ a = "-x".toList ∨ a = "--quiet".toList ∨ a = "--halt".toList then
      onlyFlags rest
    else if a = "-i".toList ∨ a = "--interval".toList then
      match rest with
      | [] => false
      | _ :: rest2 => onlyFlags rest2
    else false

/-! ## The execution loop (watch.c, lines 201-230) -/

/-- The macro `WEXITSTATUS`: bits 8 to 15 of a wait status. -/
def WEXITSTATUS (status : Nat) : Nat := (status / 256) % 256

/-- What `fork` and `waitpid` report to the parent in one pass of the loop. -/
inductive Outcome
  /-- the call `fork()` returns `-1` -/
  | forkError
  /-- a child runs, the call `waitpid` returns a negative value -/
  | waitError
  /-- a child runs and `waitpid` stores its wait status -/
  | waited (status : Nat)
deriving DecidableEq, Repr

/-- What the parent process does that can be seen from outside. -/
inductive Action
  /-- a child is created; it runs `sh -c val`, its standard output goes to
  the null device when `quiet` is set -/
  | spawn (val : CStr) (quiet : Bool)
  /-- the call `perror(what)` -/
  | perror (what : CStr)
  /-- text written to standard error -/
  | stderr (text : CStr)
  /-- the call `mssleep(ms)` -/
  | mssleep (ms : Int)
  /-- the call `exit(status)` -/
  | exit (status : Nat)
deriving DecidableEq, Repr

/-- Where a pass of the loop leaves the process. -/
inductive LoopEnd
  /-- the pass ended in `goto loop` -/
  | again
  /-- the pass ended in `if (halt) exit(WEXITSTATUS(status))` -/
  | halted (status : Nat)
  /-- the pass ended in `exit(1)` after `fork` or `waitpid` failed -/
  | fatal (status : Nat)
  /-- the pass is caught in the loop of `mssleep`, which never ends -/
  | asleep
deriving DecidableEq, Repr

/-- The text `fprintf(stderr, "\033[90mexit: %d\33[0m\n\n", code)` writes. -/
def exitDiagnostic (code : Nat) : CStr :=
  "\x1b[90mexit: ".toList ++ Nat.toDigits 10 code ++ "\x1b[0m\n\n".toList

/-- Where the call `mssleep(ms)` before `goto loop` leaves the pass. -/
def afterSleep (ms : Int) : LoopEnd :=
  if mssleepReturns ms then .again else .asleep

/-- One pass of the block after the label `loop`, in the parent. -/
def iteration (cfg : Config) (val : CStr) : Outcome → List Action × LoopEnd
  | .forkError => ([.perror "fork()".toList, .exit 1], .fatal 1)
  | .waitError => ([.spawn val cfg.quiet, .perror "waitpid()".toList, .exit 1], .fatal 1)
  | .waited status =>
    if WEXITSTATUS status ≠ 0 then
      if cfg.halt then
        ([.spawn val cfg.quiet, .stderr (exitDiagnostic (WEXITSTATUS status)),
          .exit (WEXITSTATUS status)], .halted (WEXITSTATUS status))
      else
        ([.spawn val cfg.quiet, .stderr (exitDiagnostic (WEXITSTATUS status)),
          .mssleep cfg.interval], afterSleep cfg.interval)
    else
      ([.spawn val cfg.quiet, .mssleep cfg.interval], afterSleep cfg.interval)

/-- The loop run against a script of outcomes, one for each pass: the
actions of the parent and where it stands when the process has exited or the
script has run out (`again`: about to fork the next child). -/
def runLoop (cfg : Config) (val : CStr) : List Outcome → List Action × LoopEnd
  | [] => ([], .again)
  | o :: script =>
    match iteration cfg val o with
    | (acts, .again) =>
      let more := runLoop cfg val script
      (acts ++ more.1, more.2)
    | (acts, stop) => (acts, stop)

/-- The number of passes of the loop that a script of outcomes sets off. -/
def iterations (cfg : Config) (val : CStr) : List Outcome → Nat
  | [] => 0
  | o :: script =>
    match (iteration cfg val o).2 with
    | .again => 1 + iterations cfg val script
    | _ => 1

/-- Whether an action creates a child process. -/
def Action.isSpawn : Action → Bool
  | .spawn _ _ => true
  | _ => false

/-- Whether an action is a call of `mssleep`. -/
def Action.isSleep : Action → Bool
  | .mssleep _ => true
  | _ => false

/-- Whether an action writes to standard error. -/
def Action.isStderr : Action → Bool
  | .stderr _ => true
  | _ => false

/-- The whole program on a command line and a script of outcomes: the
actions from the first pass of the loop on, or none when `main` does not
reach the loop. -/
def watch (args : List CStr) (script : List Outcome) : MainResult × List Action :=
  match main args with
  | .loop cfg val => (.loop cfg val, (runLoop cfg val script).1)
  | r => (r, [])

/-- A script in which every run of the command ends with exit status 0. -/
def allSucceed (script : List Outcome) : Prop :=
  ∀ o ∈ script, ∃ status, o = .waited status ∧ WEXITSTATUS status = 0

/-- The argument of the last `-i` or `--interval` option among the events of
a command line, if there is one. -/
def lastIntervalArg : List (Option Event) → Option StrPtr
  | [] => none
  | none :: evs => lastIntervalArg evs
  | some ev :: evs =>
    match lastIntervalArg evs with
    | some p => some p
    | none => if ev.ch = 'i' then ev.optarg else none

/-! ## Properties of `join` -/

theorem intercalate_cons_cons (val s t : CStr) (strs : List CStr) :
    List.intercalate val (s :: t :: strs) = s ++ val ++ List.intercalate val (t :: strs) := by
  simp [List.intercalate, List.intersperse]

theorem intercalate_single (val s : CStr) : List.intercalate val [s] = s := by
  simp [List.intercalate, List.intersperse]

theorem joinLoop_single (val s : CStr) (buf : Buf) :
    joinLoop val [s] buf = strcat buf s := by
  rw [joinLoop]
  cases strcat buf s with
  | none => rfl
  | some b => simp [joinLoop]

theorem joinLoop_cons_cons (val s t : CStr) (strs : List CStr) (buf : Buf) :
    joinLoop val (s :: t :: strs) buf =
      (strcat buf s).bind (fun b1 => (strcat b1 val).bind (joinLoop val (t :: strs))) := by
  rw [joinLoop]
  cases strcat buf s with
  | none => rfl
  | some b1 =>
    simp only [ne_eq, reduceCtorEq, not_false_eq_true, if_true, Option.some_bind]
    cases strcat b1 val with
    | none => rfl
    | some b2 => rfl

/-- The loop of `join` on a non-empty array: it succeeds exactly when the
whole joined string and its NUL fit behind what the buffer already holds,
and then the buffer holds the old string followed by the joined one. -/
theorem joinLoop_eq (val : CStr) (strs : List CStr) (hne : strs ≠ []) (buf : Buf) :
    joinLoop val strs buf =
      if strlen buf.str + strlen (List.intercalate val strs) + 1 ≤ buf.cap then
        some ⟨buf.cap, buf.str ++ List.intercalate val strs⟩
      else none := by
  induction strs generalizing buf with
  | nil => exact absurd rfl hne
  | cons s rest ih =>
    cases rest with
    | nil => simp only [joinLoop_single, strcat, intercalate_single]
    | cons t rest =>
      have ih2 := ih (by simp)
      rw [joinLoop_cons_cons]
      simp only [strcat, intercalate_cons_cons]
      simp only [strlen, List.length_append] at ih2 ⊢
      by_cases h1 : buf.str.length + s.length + 1 ≤ buf.cap
      · simp only [h1, if_true, Option.some_bind, List.length_append]
        by_cases h2 : buf.str.length + s.length + val.length + 1 ≤ buf.cap
        · simp only [h2, if_true, Option.some_bind, ih2, List.length_append]
          by_cases h3 : buf.str.length + s.length + val.length +
              (List.intercalate val (t :: rest)).length + 1 ≤ buf.cap
          · have h3b : buf.str.length + (s.length + val.length +
                (List.intercalate val (t :: rest)).length) + 1 ≤ buf.cap := by omega
            simp [h3, h3b, List.append_assoc]
          · have h3b : ¬ buf.str.length + (s.length + val.length +
                (List.intercalate val (t :: rest)).length) + 1 ≤ buf.cap := by omega
            simp [h3, h3b]
        · have h3b : ¬ buf.str.length + (s.length + val.length +
              (List.intercalate val (t :: rest)).length) + 1 ≤ buf.cap := by omega
          simp [h2, h3b]
      · have h3b : ¬ buf.str.length + (s.length + val.length +
            (List.intercalate val (t :: rest)).length) + 1 ≤ buf.cap := by omega
        simp [h1, h3b]

/-- The length of a joined string: all entries and one separator between
each two neighbours. -/
theorem strlen_intercalate (val : CStr) (strs : List CStr) (hne : strs ≠ []) :
    strlen (List.intercalate val strs) + 1 = joinNeeded strs val := by
  induction strs with
  | nil => exact absurd rfl hne
  | cons s rest ih =>
    cases rest with
    | nil => simp [intercalate_single, joinNeeded, strlen]
    | cons t rest =>
      have ih2 := ih (by simp)
      simp only [intercalate_cons_cons, joinNeeded, strlen, List.length_append, List.map_cons,
        List.sum_cons, List.length_cons] at ih2 ⊢
      simp only [Nat.add_sub_cancel] at ih2 ⊢
      rw [Nat.add_mul]
      omega

theorem foldl_strlen (strs : List CStr) (n : Nat) :
    strs.foldl (fun n s => n + strlen s) n = n + (strs.map strlen).sum := by
  induction strs generalizing n with
  | nil => simp
  | cons s rest ih => simp [ih, Nat.add_assoc]

/-- What `length` returns, as a sum. -/
theorem length_eq (strs : List CStr) (len : Nat) :
    length strs len = ((strs.take len).map strlen).sum + 1 := by
  simp [length, foldl_strlen]

/-- The allocation of `join` leaves the last entry out and adds two bytes:
together with the length of the last entry it is one more than what the
joined string needs. -/
theorem joinAlloc_add_last (strs : List CStr) (last val : CStr) :
    joinAlloc (strs ++ [last]) (strs ++ [last]).length val + strlen last =
      joinNeeded (strs ++ [last]) val + 1 := by
  simp only [joinAlloc, joinNeeded, length_eq, List.length_append, List.length_singleton,
    Nat.add_sub_cancel, List.take_left', List.map_append, List.sum_append,
    List.map_cons, List.map_nil, List.sum_cons, List.sum_nil]
  omega

/-- The function `join` on a non-empty array whose last entry is `last`: the
joined string when `last` has at most one character, and a write outside the
buffer otherwise. -/
theorem join_eq (strs : List CStr) (last val : CStr) :
    join (strs ++ [last]) (strs ++ [last]).length val =
      if strlen last ≤ 1 then some (List.intercalate val (strs ++ [last])) else none := by
  have hne : strs ++ [last] ≠ [] := by simp
  have h1 := strlen_intercalate val (strs ++ [last]) hne
  have h2 := joinAlloc_add_last strs last val
  simp only [join, joinLoop_eq val _ hne]
  simp only [calloc, strlen, List.length_nil, Nat.zero_add, List.nil_append] at h1 h2 ⊢
  by_cases h : last.length ≤ 1
  · have h3 : (List.intercalate val (strs ++ [last])).length + 1 ≤
        joinAlloc (strs ++ [last]) (strs.length + 1) val := by
      simp only [List.length_append, List.length_singleton] at h2
      omega
    simp [h, h3]
  · have h3 : ¬ (List.intercalate val (strs ++ [last])).length + 1 ≤
        joinAlloc (strs ++ [last]) (strs.length + 1) val := by
      simp only [List.length_append, List.length_singleton] at h2
      omega
    simp [h, h3]

/-! ## Properties of `mssleep` -/

/-- C9: for every `ms` from 0 to `INT_MAX` the arithmetic of `mssleep`
overflows nowhere and builds the request `tv_sec = ms / 1000`,
`tv_nsec = (ms mod 1000) * 1000000`; the request amounts to `ms`
milliseconds and its `tv_nsec` lies between 0 and 999999999. -/
theorem mssleep_request_exact (ms : Int) (h0 : 0 ≤ ms) (hmax : ms ≤ INT_MAX) :
    ∃ req, mssleepReq ms = some req ∧
      req.tv_sec = ms / 1000 ∧
      req.tv_nsec = (ms % 1000) * 1000000 ∧
      req.tv_sec * 1000 + req.tv_nsec / 1000000 = ms ∧
      0 ≤ req.tv_nsec ∧ req.tv_nsec ≤ 999999999 := by
  have hdiv : Int.tdiv ms 1000 = ms / 1000 := Int.tdiv_eq_ediv h0 (by decide)
  have hmod : ms - ms / 1000 * 1000 = ms % 1000 := by
    have := Int.emod_add_ediv ms 1000
    omega
  have hm0 : 0 ≤ ms % 1000 := Int.emod_nonneg ms (by decide)
  have hm1 : ms % 1000 < 1000 := Int.emod_lt_of_pos ms (by decide)
  have hq0 : 0 ≤ ms / 1000 := Int.ediv_nonneg h0 (by decide)
  simp only [INT_MAX] at hmax
  have hp : inInt32 (ms / 1000 * 1000) = true := by
    simp only [inInt32, INT_MIN, INT_MAX, Bool.and_eq_true, decide_eq_true_eq]
    omega
  have hr : inInt32 (ms % 1000) = true := by
    simp only [inInt32, INT_MIN, INT_MAX, Bool.and_eq_true, decide_eq_true_eq]
    omega
  have hn : inInt32 (ms % 1000 * 1000000) = true := by
    simp only [inInt32, INT_MIN, INT_MAX, Bool.and_eq_true, decide_eq_true_eq]
    omega
  refine ⟨⟨ms / 1000, ms % 1000 * 1000000⟩, ?_, rfl, rfl, ?_, ?_, ?_⟩
  · simp [mssleepReq, hdiv, hmod, hp, hr, hn]
  · show ms / 1000 * 1000 + ms % 1000 * 1000000 / 1000000 = ms
    rw [Int.mul_ediv_cancel _ (by decide)]
    omega
  · show 0 ≤ ms % 1000 * 1000000
    omega
  · show ms % 1000 * 1000000 ≤ 999999999
    omega

theorem mssleep_request_exact_witness :
    ∃ req, mssleepReq 2500 = some req ∧
      req.tv_sec = 2500 / 1000 ∧
      req.tv_nsec = (2500 % 1000) * 1000000 ∧
      req.tv_sec * 1000 + req.tv_nsec / 1000000 = 2500 ∧
      0 ≤ req.tv_nsec ∧ req.tv_nsec ≤ 999999999 :=
  mssleep_request_exact 2500 (by decide) (by decide)

/-! ## Properties of the execution loop -/

theorem WEXITSTATUS_exit_code (s : Nat) (h : s < 256) : WEXITSTATUS (256 * s) = s := by
  simp [WEXITSTATUS, Nat.mod_eq_of_lt h]

/-- The request of `mssleep` for an `int` that is not negative. -/
theorem mssleepReq_nonneg (ms : Int) (h0 : 0 ≤ ms) (hmax : ms ≤ INT_MAX) :
    mssleepReq ms = some ⟨ms / 1000, ms % 1000 * 1000000⟩ := by
  have hdiv : Int.tdiv ms 1000 = ms / 1000 := Int.tdiv_eq_ediv h0 (by decide)
  have hmod : ms - ms / 1000 * 1000 = ms % 1000 := by
    have := Int.emod_add_ediv ms 1000
    omega
  have hm0 : 0 ≤ ms % 1000 := Int.emod_nonneg ms (by decide)
  have hm1 : ms % 1000 < 1000 := Int.emod_lt_of_pos ms (by decide)
  have hq0 : 0 ≤ ms / 1000 := Int.ediv_nonneg h0 (by decide)
  simp only [INT_MAX] at hmax
  have hp : inInt32 (ms / 1000 * 1000) = true := by
    simp only [inInt32, INT_MIN, INT_MAX, Bool.and_eq_true, decide_eq_true_eq]
    omega
  have hr : inInt32 (ms % 1000) = true := by
    simp only [inInt32, INT_MIN, INT_MAX, Bool.and_eq_true, decide_eq_true_eq]
    omega
  have hn : inInt32 (ms % 1000 * 1000000) = true := by
    simp only [inInt32, INT_MIN, INT_MAX, Bool.and_eq_true, decide_eq_true_eq]
    omega
  simp [mssleepReq, hdiv, hmod, hp, hr, hn]

/-- The call `mssleep(ms)` returns for every `int` that is not negative. -/
theorem mssleepReturns_nonneg (ms : Int) (h0 : 0 ≤ ms) (hmax : ms ≤ INT_MAX) :
    mssleepReturns ms = true := by
  have hm0 : 0 ≤ ms % 1000 := Int.emod_nonneg ms (by decide)
  have hm1 : ms % 1000 < 1000 := Int.emod_lt_of_pos ms (by decide)
  have hq0 : 0 ≤ ms / 1000 := Int.ediv_nonneg h0 (by decide)
  simp only [mssleepReturns, mssleepReq_nonneg ms h0 hmax, validTimespec, Bool.and_eq_true,
    decide_eq_true_eq]
  omega

/-- The call `mssleep(ms)` never returns for a negative `ms`: the request has
a negative `tv_sec` or a negative `tv_nsec`. -/
theorem mssleepReturns_neg (ms : Int) (hneg : ms < 0) : mssleepReturns ms = false := by
  have hd : Int.tdiv ms 1000 = -((-ms) / 1000) := by
    have h1 : Int.tdiv (-(-ms)) 1000 = -(Int.tdiv (-ms) 1000) := Int.neg_tdiv (-ms) 1000
    rw [Int.neg_neg] at h1
    rw [h1, Int.tdiv_eq_ediv (by omega) (by decide)]
  have hq0 : 0 ≤ (-ms) / 1000 := Int.ediv_nonneg (by omega) (by decide)
  have hsplit := Int.emod_add_ediv (-ms) 1000
  have hm0 : 0 ≤ (-ms) % 1000 := Int.emod_nonneg _ (by decide)
  have hm1 : (-ms) % 1000 < 1000 := Int.emod_lt_of_pos _ (by decide)
  unfold mssleepReturns mssleepReq
  simp only [hd]
  split
  · rename_i req hreq
    split at hreq
    · simp at hreq
    · split at hreq
      · simp at hreq
      · split at hreq
        · simp at hreq
        · simp only [Option.some.injEq] at hreq
          subst hreq
          simp only [validTimespec, Bool.and_eq_false_iff, decide_eq_false_iff_not]
          by_cases hz : (-ms) / 1000 = 0
          · left; right
            simp only [hz] at hsplit ⊢
            omega
          · left; left
            omega
  · rfl

theorem afterSleep_nonneg (ms : Int) (h0 : 0 ≤ ms) (hmax : ms ≤ INT_MAX) :
    afterSleep ms = .again := by
  simp [afterSleep, mssleepReturns_nonneg ms h0 hmax]

theorem afterSleep_neg (ms : Int) (hneg : ms < 0) : afterSleep ms = .asleep := by
  simp [afterSleep, mssleepReturns_neg ms hneg]

theorem afterSleep_cases (ms : Int) : afterSleep ms = .again ∨ afterSleep ms = .asleep := by
  unfold afterSleep
  by_cases h : mssleepReturns ms = true
  · simp [h]
  · simp [h]

theorem runLoop_again (cfg : Config) (val : CStr) (o : Outcome) (script : List Outcome)
    (acts : List Action) (h : iteration cfg val o = (acts, .again)) :
    runLoop cfg val (o :: script) =
      (acts ++ (runLoop cfg val script).1, (runLoop cfg val script).2) := by
  simp [runLoop, h]

theorem runLoop_halted (cfg : Config) (val : CStr) (o : Outcome) (script : List Outcome)
    (acts : List Action) (code : Nat) (h : iteration cfg val o = (acts, .halted code)) :
    runLoop cfg val (o :: script) = (acts, .halted code) := by
  simp [runLoop, h]

theorem runLoop_fatal (cfg : Config) (val : CStr) (o : Outcome) (script : List Outcome)
    (acts : List Action) (code : Nat) (h : iteration cfg val o = (acts, .fatal code)) :
    runLoop cfg val (o :: script) = (acts, .fatal code) := by
  simp [runLoop, h]

theorem runLoop_asleep (cfg : Config) (val : CStr) (o : Outcome) (script : List Outcome)
    (acts : List Action) (h : iteration cfg val o = (acts, .asleep)) :
    runLoop cfg val (o :: script) = (acts, .asleep) := by
  simp [runLoop, h]

/-- C3: with halt-on-failure set, the pass that observes a non-zero exit
status `s` ends the process with exit status `s`: after the diagnostic comes
`exit(s)`, there is no sleep and no other child, whatever the rest of the
script holds, and the loop has made exactly one pass. -/
theorem halt_exits_with_child_status (cfg : Config) (val : CStr) (s status : Nat)
    (script : List Outcome) (hs : s ≠ 0) (hw : WEXITSTATUS status = s)
    (hh : cfg.halt = true) :
    runLoop cfg val (.waited status :: script) =
        ([.spawn val cfg.quiet, .stderr (exitDiagnostic s), .exit s], .halted s) ∧
      (runLoop cfg val (.waited status :: script)).1.filter Action.isSleep = [] ∧
      ((runLoop cfg val (.waited status :: script)).1.filter Action.isSpawn).length = 1 ∧
      iterations cfg val (.waited status :: script) = 1 := by
  have hit : iteration cfg val (.waited status) =
      ([.spawn val cfg.quiet, .stderr (exitDiagnostic s), .exit s], .halted s) := by
    simp [iteration, hw, hs, hh]
  have hrun := runLoop_halted cfg val _ script _ _ hit
  refine ⟨hrun, ?_, ?_, ?_⟩
  · rw [hrun]; rfl
  · rw [hrun]; rfl
  · simp [iterations, hit]

/-- A command that always exits with code 7, halt-on-failure set: the
process ends with exit status 7 after one pass. -/
theorem halt_exits_with_child_status_witness :
    runLoop ⟨1000, false, true⟩ "w".toList (.waited 1792 :: List.replicate 3 (.waited 1792)) =
        ([.spawn "w".toList false, .stderr (exitDiagnostic 7), .exit 7], .halted 7) ∧
      (runLoop ⟨1000, false, true⟩ "w".toList
        (.waited 1792 :: List.replicate 3 (.waited 1792))).1.filter Action.isSleep = [] ∧
      ((runLoop ⟨1000, false, true⟩ "w".toList
        (.waited 1792 :: List.replicate 3 (.waited 1792))).1.filter Action.isSpawn).length = 1 ∧
      iterations ⟨1000, false, true⟩ "w".toList
        (.waited 1792 :: List.replicate 3 (.waited 1792)) = 1 :=
  halt_exits_with_child_status ⟨1000, false, true⟩ "w".toList 7 1792
    (List.replicate 3 (.waited 1792)) (by decide) (by decide) rfl

theorem toDigitsCore_isDigit (fuel : Nat) :
    ∀ (n : Nat) (acc : List Char), (∀ c ∈ acc, c.isDigit = true) →
      ∀ c ∈ Nat.toDigitsCore 10 fuel n acc, c.isDigit = true := by
  induction fuel with
  | zero => intro n acc hacc c hc; simpa [Nat.toDigitsCore] using hacc c (by simpa [Nat.toDigitsCore] using hc)
  | succ fuel ih =>
    intro n acc hacc c hc
    have hd : (Nat.digitChar (n % 10)).isDigit = true := by
      have hlt : n % 10 < 10 := Nat.mod_lt _ (by decide)
      generalize n % 10 = r at hlt
      interval_cases r <;> decide
    have hacc2 : ∀ c ∈ Nat.digitChar (n % 10) :: acc, c.isDigit = true := by
      intro c hc
      rcases List.mem_cons.mp hc with h | h
      · rw [h]; exact hd
      · exact hacc c h
    simp only [Nat.toDigitsCore] at hc
    split at hc
    · exact hacc2 c hc
    · exact ih _ _ hacc2 c hc

/-- The decimal numeral `printf` writes for `%d` holds digits only. -/
theorem toDigits_isDigit (n : Nat) : ∀ c ∈ Nat.toDigits 10 n, c.isDigit = true :=
  toDigitsCore_isDigit _ n [] (by simp)

/-- C4, as amended: with halt-on-failure off, a pass that observes a non-zero
exit status `s` writes the diagnostic to standard error and calls
`mssleep(interval)`.  The diagnostic is one line that holds the decimal
numeral of `s`, followed by an empty line; it and the way the pass ends are
the same for both values of `quiet`.  When the interval is not negative the
sleep ends and the next pass starts, so a command that fails on every run is
reported on every pass; when the interval is negative `mssleep` never
returns and no other pass starts. -/
theorem failure_without_halt_reports_and_continues (cfg : Config) (val : CStr)
    (s status : Nat) (script : List Outcome) (hs : s ≠ 0) (hw : WEXITSTATUS status = s)
    (hh : cfg.halt = false) :
    (iteration cfg val (.waited status)).1 =
        [.spawn val cfg.quiet, .stderr (exitDiagnostic s), .mssleep cfg.interval] ∧
      (∃ line, exitDiagnostic s = line ++ ['\n', '\n'] ∧ '\n' ∉ line ∧
        Nat.toDigits 10 s <:+: line) ∧
      (∀ q : Bool,
        (iteration { cfg with quiet := q } val (.waited status)).1.filter Action.isStderr =
            [.stderr (exitDiagnostic s)] ∧
          (iteration { cfg with quiet := q } val (.waited status)).2 =
            (iteration cfg val (.waited status)).2) ∧
      (0 ≤ cfg.interval → cfg.interval ≤ INT_MAX →
        runLoop cfg val (.waited status :: script) =
            ([.spawn val cfg.quiet, .stderr (exitDiagnostic s), .mssleep cfg.interval] ++
              (runLoop cfg val script).1, (runLoop cfg val script).2) ∧
          ∀ n : Nat, runLoop cfg val (List.replicate n (.waited status)) =
            ((List.replicate n
              [Action.spawn val cfg.quiet, .stderr (exitDiagnostic s),
                .mssleep cfg.interval]).flatten, .again)) ∧
      (cfg.interval < 0 →
        runLoop cfg val (.waited status :: script) =
          ([.spawn val cfg.quiet, .stderr (exitDiagnostic s), .mssleep cfg.interval],
            .asleep)) := by
  have hit : ∀ c : Config, c.halt = false → iteration c val (.waited status) =
      ([.spawn val c.quiet, .stderr (exitDiagnostic s), .mssleep c.interval],
        afterSleep c.interval) := by
    intro c hc
    simp [iteration, hw, hs, hc]
  refine ⟨by rw [hit cfg hh], ?_, ?_, ?_, ?_⟩
  · refine ⟨"\x1b[90mexit: ".toList ++ Nat.toDigits 10 s ++ "\x1b[0m".toList, ?_, ?_, ?_⟩
    · simp [exitDiagnostic]
    · intro hmem
      rcases List.mem_append.mp hmem with h | h
      · rcases List.mem_append.mp h with h | h
        · revert h; decide
        · have := toDigits_isDigit s _ h
          revert this; decide
      · revert h; decide
    · exact ⟨"\x1b[90mexit: ".toList, "\x1b[0m".toList, rfl⟩
  · intro q
    rw [hit { cfg with quiet := q } hh, hit cfg hh]
    exact ⟨rfl, rfl⟩
  · intro h0 hmax
    have hit2 : iteration cfg val (.waited status) =
        ([.spawn val cfg.quiet, .stderr (exitDiagnostic s), .mssleep cfg.interval],
          .again) := by
      rw [hit cfg hh, afterSleep_nonneg _ h0 hmax]
    refine ⟨runLoop_again cfg val _ script _ hit2, ?_⟩
    intro n
    induction n with
    | zero => rfl
    | succ n ih =>
      rw [List.replicate_succ, runLoop_again cfg val _ _ _ hit2, ih]
      simp [List.replicate_succ]
  · intro hneg
    have hit2 : iteration cfg val (.waited status) =
        ([.spawn val cfg.quiet, .stderr (exitDiagnostic s), .mssleep cfg.interval],
          .asleep) := by
      rw [hit cfg hh, afterSleep_neg _ hneg]
    exact runLoop_asleep cfg val _ script _ hit2

/-- A command that always exits with code 7, halt-on-failure off, the
default interval. -/
theorem failure_without_halt_reports_and_continues_witness :
    runLoop ⟨1000, true, false⟩ "w".toList (List.replicate 2 (.waited 1792)) =
        ([.spawn "w".toList true, .stderr (exitDiagnostic 7), .mssleep 1000,
          .spawn "w".toList true, .stderr (exitDiagnostic 7), .mssleep 1000], .again) ∧
      (iteration ⟨1000, false, false⟩ "w".toList (.waited 1792)).1.filter Action.isStderr =
        [.stderr (exitDiagnostic 7)] :=
  ⟨((failure_without_halt_reports_and_continues ⟨1000, true, false⟩ "w".toList 7 1792
      [] (by decide) (by decide) rfl).2.2.2.1 (by decide) (by decide)).2 2,
    ((failure_without_halt_reports_and_continues ⟨1000, true, false⟩ "w".toList 7 1792
      [] (by decide) (by decide) rfl).2.2.1 false).1⟩

/-- C4, as stated, fails: the command line `-i -5 w` reaches the loop with
the interval -5000, and against a command that exits with code 7 on every
run the first pass writes its diagnostic and calls `mssleep(-5000)`, which
never returns: the loop stands there and no second child is created. -/
theorem negative_interval_never_continues :
    main ["-i".toList, "-5".toList, "w".toList] = .loop ⟨-5000, false, false⟩ "w".toList ∧
      mssleepReq (-5000) = some ⟨-5, 0⟩ ∧
      runLoop ⟨-5000, false, false⟩ "w".toList [.waited 1792, .waited 1792] =
        ([.spawn "w".toList false, .stderr (exitDiagnostic 7), .mssleep (-5000)],
          .asleep) ∧
      ((runLoop ⟨-5000, false, false⟩ "w".toList
        [.waited 1792, .waited 1792]).1.filter Action.isSpawn).length = 1 := by
  decide

theorem iteration_halted (cfg : Config) (val : CStr) (o : Outcome) (code : Nat)
    (h : (iteration cfg val o).2 = .halted code) :
    cfg.halt = true ∧ code ≠ 0 ∧ ∃ status, o = .waited status ∧ WEXITSTATUS status = code := by
  cases o with
  | forkError => simp [iteration] at h
  | waitError => simp [iteration] at h
  | waited status =>
    by_cases hs : WEXITSTATUS status = 0
    · simp only [iteration, hs, ne_eq, not_true_eq_false, if_false] at h
      rcases afterSleep_cases cfg.interval with h2 | h2 <;> (rw [h2] at h; simp at h)
    · by_cases hh : cfg.halt = true
      · simp only [iteration, ne_eq, hs, not_false_eq_true, if_true, hh,
          LoopEnd.halted.injEq] at h
        exact ⟨hh, h ▸ hs, status, rfl, h⟩
      · simp only [iteration, ne_eq, hs, not_false_eq_true, if_true, hh] at h
        rcases afterSleep_cases cfg.interval with h2 | h2 <;> (rw [h2] at h; simp at h)

/-- C7: the loop ends in the halt branch only in a pass whose exit status is
not zero while halt-on-failure is set, and all passes before that one ended
in `goto loop`; when every run of the command exits with status 0 the loop
never halts and writes nothing to standard error, whatever the flag is: it
is about to start another pass or stands in `mssleep`, and with an interval
that is not negative every run is followed by the next. -/
theorem halted_only_on_failure_with_halt (cfg : Config) (val : CStr) (script : List Outcome) :
    (∀ code, (runLoop cfg val script).2 = .halted code →
      cfg.halt = true ∧ code ≠ 0 ∧
        ∃ pre status post, script = pre ++ .waited status :: post ∧
          WEXITSTATUS status = code ∧ (runLoop cfg val pre).2 = .again) ∧
    (allSucceed script →
      (∀ code, (runLoop cfg val script).2 ≠ .halted code) ∧
        ((runLoop cfg val script).2 = .again ∨ (runLoop cfg val script).2 = .asleep) ∧
        (runLoop cfg val script).1.filter Action.isStderr = [] ∧
        (0 ≤ cfg.interval → cfg.interval ≤ INT_MAX →
          (runLoop cfg val script).2 = .again ∧
            ((runLoop cfg val script).1.filter Action.isSpawn).length = script.length)) := by
  induction script with
  | nil =>
    refine ⟨?_, fun _ => ⟨?_, Or.inl rfl, rfl, fun _ _ => ⟨rfl, rfl⟩⟩⟩
    · intro code h
      simp [runLoop] at h
    · intro code h
      simp [runLoop] at h
  | cons o script ih =>
    obtain ⟨ih1, ih2⟩ := ih
    constructor
    · intro code h
      rcases hit : iteration cfg val o with ⟨acts, stop⟩
      cases stop with
      | again =>
        rw [runLoop_again cfg val o script acts hit] at h
        obtain ⟨hh, hc, pre, status, post, hscript, hw, hpre⟩ := ih1 code h
        refine ⟨hh, hc, o :: pre, status, post, by simp [hscript], hw, ?_⟩
        rw [runLoop_again cfg val o pre acts hit]
        exact hpre
      | halted c =>
        rw [runLoop_halted cfg val o script acts c hit] at h
        have hc : c = code := by simpa using h
        obtain ⟨hh, hne, status, ho, hw⟩ :=
          iteration_halted cfg val o c (by rw [hit])
        exact ⟨hh, hc ▸ hne, [], status, script, by simp [ho], hc ▸ hw, rfl⟩
      | fatal c =>
        rw [runLoop_fatal cfg val o script acts c hit] at h
        simp at h
      | asleep =>
        rw [runLoop_asleep cfg val o script acts hit] at h
        simp at h
    · intro hall
      obtain ⟨status, ho, hw⟩ := hall o (by simp)
      have hrest : allSucceed script := fun o2 h2 => hall o2 (by simp [h2])
      obtain ⟨h0, h1, h2, h3⟩ := ih2 hrest
      have hit : iteration cfg val o =
          ([.spawn val cfg.quiet, .mssleep cfg.interval], afterSleep cfg.interval) := by
        simp [ho, iteration, hw]
      have hgo : 0 ≤ cfg.interval → cfg.interval ≤ INT_MAX →
          (runLoop cfg val (o :: script)).2 = .again ∧
            ((runLoop cfg val (o :: script)).1.filter Action.isSpawn).length =
              (o :: script).length := by
        intro hi0 hi1
        obtain ⟨h4, h5⟩ := h3 hi0 hi1
        rw [afterSleep_nonneg _ hi0 hi1] at hit
        rw [runLoop_again cfg val o script _ hit]
        exact ⟨h4, by simp [List.filter_cons, Action.isSpawn, h5]⟩
      rcases afterSleep_cases cfg.interval with hs | hs
      · rw [hs] at hit
        have hrun := runLoop_again cfg val o script _ hit
        refine ⟨?_, ?_, ?_, hgo⟩
        · intro code; rw [hrun]; exact h0 code
        · rw [hrun]; exact h1
        · rw [hrun]; simp [List.filter_cons, Action.isStderr, h2]
      · rw [hs] at hit
        have hrun := runLoop_asleep cfg val o script _ hit
        refine ⟨?_, ?_, ?_, hgo⟩
        · intro code; rw [hrun]; simp
        · rw [hrun]; exact Or.inr rfl
        · rw [hrun]; simp [List.filter_cons, Action.isStderr]

/-- A command that always exits 0, halt-on-failure set, three runs. -/
theorem halted_only_on_failure_with_halt_witness :
    (runLoop ⟨1000, false, true⟩ "w".toList (List.replicate 3 (.waited 0))).2 = .again ∧
      (runLoop ⟨1000, false, true⟩ "w".toList
        (List.replicate 3 (.waited 0))).1.filter Action.isStderr = [] ∧
      ((runLoop ⟨1000, false, true⟩ "w".toList
        (List.replicate 3 (.waited 0))).1.filter Action.isSpawn).length =
        (List.replicate 3 (Outcome.waited 0)).length :=
  ⟨(((halted_only_on_failure_with_halt ⟨1000, false, true⟩ "w".toList
      (List.replicate 3 (.waited 0))).2
      (by intro o ho; exact ⟨0, List.eq_of_mem_replicate ho, by decide⟩)).2.2.2
      (by decide) (by decide)).1,
    ((halted_only_on_failure_with_halt ⟨1000, false, true⟩ "w".toList
      (List.replicate 3 (.waited 0))).2
      (by intro o ho; exact ⟨0, List.eq_of_mem_replicate ho, by decide⟩)).2.2.1,
    (((halted_only_on_failure_with_halt ⟨1000, false, true⟩ "w".toList
      (List.replicate 3 (.waited 0))).2
      (by intro o ho; exact ⟨0, List.eq_of_mem_replicate ho, by decide⟩)).2.2.2
      (by decide) (by decide)).2⟩

/-! ## The buffer of `join` on concrete command lines -/

/-- C10: for the tokens `echo`, `hi` and the separator `" "` the function
`join` allocates 7 bytes, while the joined string `echo hi` with its NUL
takes 8: the allocation is smaller than what is written. -/
theorem joinAlloc_too_small :
    joinAlloc ["echo".toList, "hi".toList] 2 " ".toList = 7 ∧
      joinNeeded ["echo".toList, "hi".toList] " ".toList = 8 ∧
      ¬ (joinNeeded ["echo".toList, "hi".toList] " ".toList ≤
        joinAlloc ["echo".toList, "hi".toList] 2 " ".toList) := by
  decide

/-- C1: for the single token `ls` the function `join` allocates 2 bytes and
its first `strcat` writes 3: the call has no defined result, where the
joined string would be `ls`. -/
theorem join_single_token_overflows :
    joinAlloc ["ls".toList] 1 " ".toList = 2 ∧
      strcat (calloc 2) "ls".toList = none ∧
      join ["ls".toList] 1 " ".toList = none ∧
      List.intercalate " ".toList ["ls".toList] = "ls".toList ∧
      main ["ls".toList] = .undefined := by
  decide

/-- C6: for the tokens `sleep`, `10`, which hold no space, `join` writes
outside its buffer, so there is no joined string to split; splitting the
string `sleep 10` itself gives the tokens back. -/
theorem join_then_split_overflows :
    join ["sleep".toList, "10".toList] 2 " ".toList = none ∧
      (join ["sleep".toList, "10".toList] 2 " ".toList).map splitOnSpace ≠
        some ["sleep".toList, "10".toList] ∧
      splitOnSpace (List.intercalate " ".toList ["sleep".toList, "10".toList]) =
        ["sleep".toList, "10".toList] := by
  decide

/-- Whenever `join` returns a string and no entry holds a space, splitting
that string at the spaces gives the entries back. -/
theorem split_join (strs : List CStr) (last r : CStr)
    (hsp : ∀ s ∈ strs ++ [last], ' ' ∉ s)
    (h : join (strs ++ [last]) (strs ++ [last]).length [' '] = some r) :
    splitOnSpace r = strs ++ [last] := by
  rw [join_eq] at h
  split at h
  · have hr : r = List.intercalate [' '] (strs ++ [last]) := by simpa using h.symm
    rw [hr, splitOnSpace]
    exact List.splitOn_intercalate _ ' ' hsp (by simp)
  · simp at h

/-! ## Properties of the interval expression -/

theorem wrapInt32_of_inRange (x : Int) (h1 : INT_MIN ≤ x) (h2 : x ≤ INT_MAX) :
    wrapInt32 x = x := by
  simp only [INT_MIN, INT_MAX] at h1 h2
  simp only [wrapInt32]
  rw [Int.emod_eq_of_lt (by omega) (by omega)]
  omega

theorem decimalValue_cons (c : Char) (cs : CStr) :
    decimalValue (c :: cs) = digitVal c * 10 ^ cs.length + decimalValue cs := by
  simp [decimalValue, Nat.ofDigits_append, Nat.mul_comm, Nat.add_comm]

/-- The digit loop of `atoi` on a string of digits followed by something
that does not start with a digit. -/
theorem atoiDigits_append (d rest : CStr) (acc : Nat) (hd : allDigits d = true)
    (hrest : ∀ c, rest.head? = some c → c.isDigit = false) :
    atoiDigits (d ++ rest) acc = acc * 10 ^ d.length + decimalValue d := by
  induction d generalizing acc with
  | nil =>
    cases rest with
    | nil => simp [atoiDigits, decimalValue]
    | cons c cs =>
      have := hrest c rfl
      simp [atoiDigits, decimalValue, this]
  | cons c cs ih =>
    simp only [allDigits, List.all_cons, Bool.and_eq_true] at hd
    have ih2 := ih (acc * 10 + digitVal c) hd.2
    rw [List.cons_append, atoiDigits]
    simp only [hd.1, if_true]
    rw [ih2, decimalValue_cons, List.length_cons]
    ring

theorem isDigit_not_sign_or_space (c : Char) (h : c.isDigit = true) :
    isspace c = false ∧ c ≠ '-' ∧ c ≠ '+' := by
  refine ⟨?_, ?_, ?_⟩
  · cases hs : isspace c with
    | false => rfl
    | true =>
      simp only [isspace, Bool.or_eq_true, decide_eq_true_eq] at hs
      rcases hs with ((((hs | hs) | hs) | hs) | hs) | hs <;> (rw [hs] at h; revert h; decide)
  · intro hc; rw [hc] at h; revert h; decide
  · intro hc; rw [hc] at h; revert h; decide

/-- The function `atoi` on a string whose integer fits an `int`: neither the
bounds of `long` nor the conversion to `int` change the value. -/
theorem atoi_of_inRange (s : CStr) (hmin : INT_MIN ≤ signedDigits s)
    (hmax : signedDigits s ≤ INT_MAX) : atoi s = signedDigits s := by
  have h1 : ¬ signedDigits s < LONG_MIN := by
    simp only [INT_MIN] at hmin; simp only [LONG_MIN]; omega
  have h2 : ¬ LONG_MAX < signedDigits s := by
    simp only [INT_MAX] at hmax; simp only [LONG_MAX]; omega
  simp only [atoi, strtol, h1, h2, if_false]
  exact wrapInt32_of_inRange _ hmin hmax

/-- What `strtol` reads from a non-empty string of digits followed by
something that does not start with a digit: the number the digits denote. -/
theorem signedDigits_digits (d rest : CStr) (hne : d ≠ []) (hd : allDigits d = true)
    (hrest : ∀ c, rest.head? = some c → c.isDigit = false) :
    signedDigits (d ++ rest) = decimalValue d := by
  cases d with
  | nil => exact absurd rfl hne
  | cons c cs =>
    have hc : c.isDigit = true := by
      simp only [allDigits, List.all_cons, Bool.and_eq_true] at hd
      exact hd.1
    obtain ⟨hsp, hm, hp⟩ := isDigit_not_sign_or_space c hc
    have hval := atoiDigits_append (c :: cs) rest 0 hd hrest
    simp only [Nat.zero_mul, Nat.zero_add] at hval
    have hdrop : List.dropWhile isspace (c :: cs ++ rest) = c :: (cs ++ rest) := by
      simp [List.dropWhile, hsp]
    unfold signedDigits
    rw [hdrop]
    split
    · rename_i h; exact absurd (List.cons.inj h).1 hm
    · rename_i h; exact absurd (List.cons.inj h).1 hp
    · exact congrArg Int.ofNat hval

theorem signedDigits_minus (cs : CStr) :
    signedDigits ('-' :: cs) = -(atoiDigits cs 0 : Int) := by
  have hsp : isspace '-' = false := by decide
  have hdrop : List.dropWhile isspace ('-' :: cs) = '-' :: cs := by
    simp [List.dropWhile, hsp]
  unfold signedDigits
  rw [hdrop]
  split
  · rename_i h; rw [(List.cons.inj h).2]
  · rename_i h; exact absurd (List.cons.inj h).1 (by decide)
  · rename_i h1 h2; exact absurd rfl (h1 cs)

theorem signedDigits_plus (cs : CStr) :
    signedDigits ('+' :: cs) = (atoiDigits cs 0 : Int) := by
  have hsp : isspace '+' = false := by decide
  have hdrop : List.dropWhile isspace ('+' :: cs) = '+' :: cs := by
    simp [List.dropWhile, hsp]
  unfold signedDigits
  rw [hdrop]
  split
  · rename_i h; exact absurd (List.cons.inj h).1 (by decide)
  · rename_i h; rw [(List.cons.inj h).2]
  · rename_i h1 h2; exact absurd rfl (h2 cs)

/-- What `strtol` reads from an optional sign and a non-empty string of
digits, followed by something that does not start with a digit: the integer
they denote. -/
theorem signedDigits_signed (sgn d rest : CStr) (hs : isSign sgn = true) (hne : d ≠ [])
    (hd : allDigits d = true) (hrest : ∀ c, rest.head? = some c → c.isDigit = false) :
    signedDigits (sgn ++ d ++ rest) = intValue sgn d := by
  have hval := atoiDigits_append d rest 0 hd hrest
  simp only [Nat.zero_mul, Nat.zero_add] at hval
  simp only [isSign, decide_eq_true_eq] at hs
  rcases hs with h | h | h
  · subst h
    have hv : intValue [] d = decimalValue d := by simp [intValue]
    rw [hv]
    exact signedDigits_digits d rest hne hd hrest
  · subst h
    have hv : intValue ['-'] d = -(decimalValue d : Int) := by simp [intValue]
    rw [hv]
    show signedDigits ('-' :: (d ++ rest)) = _
    rw [signedDigits_minus, hval]
  · subst h
    have hv : intValue ['+'] d = decimalValue d := by simp [intValue]
    rw [hv]
    show signedDigits ('+' :: (d ++ rest)) = _
    rw [signedDigits_plus, hval]

/-- The function `atoi` on an optional sign and a non-empty string of digits,
followed by something that does not start with a digit: the integer they
denote, when it fits an `int`. -/
theorem atoi_signed (sgn d rest : CStr) (hs : isSign sgn = true) (hne : d ≠ [])
    (hd : allDigits d = true) (hrest : ∀ c, rest.head? = some c → c.isDigit = false)
    (hmin : INT_MIN ≤ intValue sgn d) (hmax : intValue sgn d ≤ INT_MAX) :
    atoi (sgn ++ d ++ rest) = intValue sgn d := by
  have h := signedDigits_signed sgn d rest hs hne hd hrest
  rw [atoi_of_inRange _ (by rw [h]; exact hmin) (by rw [h]; exact hmax), h]

theorem read_nonneg_lt (p : StrPtr) (i : Nat) (h : i < p.str.length) :
    p.read (i : Int) = p.str.get? i := by
  simp [StrPtr.read, h]

theorem milliseconds_suffix (before d : CStr) :
    milliseconds ⟨before, d ++ ['m', 's']⟩ = some true := by
  have h1 : ((strlen (d ++ ['m', 's']) : Nat) : Int) - 2 = (d.length : Nat) := by
    simp [strlen]
  have h2 : ((strlen (d ++ ['m', 's']) : Nat) : Int) - 1 = ((d.length + 1 : Nat) : Int) := by
    simp [strlen]; omega
  have hA : (d ++ ['m', 's']).get? d.length = some 'm' := by
    rw [List.get?_eq_getElem?, List.getElem?_append_right (Nat.le_refl _)]; simp
  have hB : (d ++ ['m', 's']).get? (d.length + 1) = some 's' := by
    rw [List.get?_eq_getElem?, List.getElem?_append_right (by omega)]; simp
  simp only [milliseconds, h1, h2]
  rw [read_nonneg_lt _ _ (by simp), read_nonneg_lt _ _ (by simp), hA, hB]
  rfl

/-- The function `milliseconds` on a non-empty string that holds neither `m`
nor `s`: the answer is no, provided the read of `str[len-2]` stays inside
the string or the bytes in front of it. -/
theorem milliseconds_no_ms (before d : CStr) (hne : d ≠ [])
    (hdig : ∀ c ∈ d, c ≠ 'm' ∧ c ≠ 's') (hmem : 2 ≤ d.length + before.length) :
    milliseconds ⟨before, d⟩ = some false := by
  have hlen : 0 < d.length := List.length_pos.mpr hne
  have hlast : ((strlen d : Nat) : Int) - 1 = ((d.length - 1 : Nat) : Int) := by
    simp only [strlen]; omega
  have hreadlast : ∀ b, (⟨before, d⟩ : StrPtr).read (((strlen d : Nat) : Int) - 1) = some b →
      's' ≠ b := by
    intro b hb
    rw [hlast, read_nonneg_lt _ _ (by simp; omega)] at hb
    have := List.get?_mem hb
    exact fun h => (hdig b this).2 h.symm
  by_cases h2 : 2 ≤ d.length
  · have hidx : ((strlen d : Nat) : Int) - 2 = ((d.length - 2 : Nat) : Int) := by
      simp only [strlen]; omega
    simp only [milliseconds, hidx]
    rw [read_nonneg_lt _ _ (by simp; omega)]
    have hlt : d.length - 2 < d.length := by omega
    have hget : d.get? (d.length - 2) = some (d.get ⟨d.length - 2, hlt⟩) := List.get?_eq_get hlt
    rw [hget]
    have hm := (hdig _ (List.get_mem d (d.length - 2) hlt)).1
    simp only [Ne.symm hm, if_false]
  · have h1 : d.length = 1 := by omega
    have hidx : ((strlen d : Nat) : Int) - 2 = -1 := by
      simp only [strlen]; omega
    cases before with
    | nil => simp at hmem; omega
    | cons b bs =>
      have hread : (⟨b :: bs, d⟩ : StrPtr).read (-1) = some b := by
        simp [StrPtr.read]
      simp only [milliseconds, hidx, hread]
      by_cases hb : 'm' = b
      · simp only [hb, if_true]
        cases hr : (⟨b :: bs, d⟩ : StrPtr).read (((strlen d : Nat) : Int) - 1) with
        | none =>
          rw [hlast, read_nonneg_lt _ _ (by simp; omega)] at hr
          have hlt : d.length - 1 < d.length := by omega
          rw [List.get?_eq_get hlt] at hr
          simp at hr
        | some c =>
          have := hreadlast c hr
          simp [this]
      · simp [hb]

theorem sign_digits_no_ms (sgn d : CStr) (hs : isSign sgn = true) (hd : allDigits d = true) :
    ∀ c ∈ sgn ++ d, c ≠ 'm' ∧ c ≠ 's' := by
  intro c hc
  rcases List.mem_append.mp hc with h | h
  · simp only [isSign, decide_eq_true_eq] at hs
    rcases hs with h0 | h0 | h0 <;> subst h0
    · simp at h
    · have : c = '-' := by simpa using h
      subst this; decide
    · have : c = '+' := by simpa using h
      subst this; decide
  · have : c.isDigit = true := by
      simp only [allDigits, List.all_eq_true] at hd
      exact hd c h
    constructor <;> (intro h; rw [h] at this; revert this; decide)

/-- The interval expression on an optional sign and digits followed by
`ms`: the integer they denote, when it fits an `int`. -/
theorem parseInterval_ms_form (before sgn d : CStr) (hs : isSign sgn = true) (hne : d ≠ [])
    (hd : allDigits d = true) (hmin : INT_MIN ≤ intValue sgn d)
    (hmax : intValue sgn d ≤ INT_MAX) :
    parseInterval ⟨before, sgn ++ d ++ ['m', 's']⟩ = some (intValue sgn d) := by
  have hat := atoi_signed sgn d ['m', 's'] hs hne hd
    (by intro c hc; simp at hc; rw [← hc]; decide) hmin hmax
  simp only [parseInterval, milliseconds_suffix, hat]

/-- The interval expression on an optional sign and digits: the integer
they denote times 1000, when the product fits an `int`. -/
theorem parseInterval_seconds_form (before sgn d : CStr) (hs : isSign sgn = true)
    (hne : d ≠ []) (hd : allDigits d = true)
    (hmem : 2 ≤ (sgn ++ d).length + before.length)
    (hmin : INT_MIN ≤ intValue sgn d * 1000) (hmax : intValue sgn d * 1000 ≤ INT_MAX) :
    parseInterval ⟨before, sgn ++ d⟩ = some (intValue sgn d * 1000) := by
  have hmin1 : INT_MIN ≤ intValue sgn d := by
    simp only [INT_MIN] at hmin ⊢; omega
  have hmax1 : intValue sgn d ≤ INT_MAX := by
    simp only [INT_MAX] at hmax ⊢; omega
  have hat := atoi_signed sgn d [] hs hne hd (by intro c hc; simp at hc) hmin1 hmax1
  rw [List.append_nil] at hat
  have hne2 : sgn ++ d ≠ [] := by simp [hne]
  simp only [parseInterval,
    milliseconds_no_ms before (sgn ++ d) hne2 (sign_digits_no_ms sgn d hs hd) hmem, hat]
  rw [wrapInt32_of_inRange _ hmin hmax]

/-- C2, as amended: for an optional sign `sgn` and a non-empty string of
decimal digits `d` that denote the integer `n`, the interval for the
argument `sgn d` followed by `ms` is `n` when `n` fits an `int`, and the
interval for the argument `sgn d` alone is `n * 1000` when that product fits
an `int`; for an argument of one character the byte in front of it, which
`milliseconds` reads, has to be readable. -/
theorem parseInterval_decimal (before sgn d : CStr) (hs : isSign sgn = true) (hne : d ≠ [])
    (hd : allDigits d = true) :
    (INT_MIN ≤ intValue sgn d → intValue sgn d ≤ INT_MAX →
      parseInterval ⟨before, sgn ++ d ++ "ms".toList⟩ = some (intValue sgn d)) ∧
    (2 ≤ (sgn ++ d).length + before.length →
      INT_MIN ≤ intValue sgn d * 1000 → intValue sgn d * 1000 ≤ INT_MAX →
      parseInterval ⟨before, sgn ++ d⟩ = some (intValue sgn d * 1000)) :=
  ⟨parseInterval_ms_form before sgn d hs hne hd,
    parseInterval_seconds_form before sgn d hs hne hd⟩

/-- The arguments `250ms` and `7`, the latter a command line argument of its
own behind `-i`. -/
theorem parseInterval_decimal_witness :
    parseInterval ⟨['i', '-'], "250ms".toList⟩ = some 250 ∧
      parseInterval ⟨['\x00', 'i', '-'], "7".toList⟩ = some 7000 :=
  ⟨(parseInterval_decimal ['i', '-'] [] "250".toList (by decide) (by decide) (by decide)).1
      (by decide) (by decide),
    (parseInterval_decimal ['\x00', 'i', '-'] [] "7".toList (by decide) (by decide)
      (by decide)).2 (by decide) (by decide) (by decide)⟩

/-- Outside the range of `long` the value `strtol` returns is `LONG_MAX` or
`LONG_MIN`, of which `atoi` keeps the low 32 bits: the argument
`99999999999999999999` gives the interval -1000. -/
theorem parseInterval_beyond_long :
    atoi "99999999999999999999".toList = -1 ∧
      atoi "-99999999999999999999".toList = 0 ∧
      parseInterval ⟨['\x00', 'i', '-'], "99999999999999999999".toList⟩ = some (-1000) := by
  decide

/-- C2, as stated, fails: the argument `2147484` is a well-formed integer
that does not end in `ms`, and the interval is not 2147484000 but the `int`
the product wraps to. -/
theorem parseInterval_seconds_overflow :
    allDigits "2147484".toList = true ∧
      atoi "2147484".toList = 2147484 ∧
      parseInterval ⟨['\x00', 'i', '-'], "2147484".toList⟩ = some (-2147483296) ∧
      parseInterval ⟨['\x00', 'i', '-'], "2147484".toList⟩ ≠ some (2147484 * 1000) := by
  decide

/-! ## Properties of `main` -/

theorem read_defined (p : StrPtr) (i : Int) (h1 : -(p.before.length : Int) ≤ i)
    (h2 : i ≤ p.str.length) : ∃ c, p.read i = some c := by
  unfold StrPtr.read
  by_cases h0 : 0 ≤ i
  · simp only [h0, if_true]
    by_cases hlt : i.toNat < p.str.length
    · simp only [hlt, if_true]
      exact ⟨p.str.get ⟨i.toNat, hlt⟩, List.get?_eq_get hlt⟩
    · have : i.toNat = p.str.length := by omega
      simp [this]
  · simp only [h0, if_false]
    have hlt : (-i - 1).toNat < p.before.length := by omega
    exact ⟨p.before.get ⟨_, hlt⟩, List.get?_eq_get hlt⟩

/-- The interval expression is defined for every argument that has two
readable bytes in front of it. -/
theorem parseInterval_defined (p : StrPtr) (h : 2 ≤ p.before.length) :
    ∃ n, parseInterval p = some n := by
  obtain ⟨a, ha⟩ := read_defined p ((p.str.length : Int) - 2) (by omega) (by omega)
  obtain ⟨b, hb⟩ := read_defined p ((p.str.length : Int) - 1) (by omega) (by omega)
  have hm : ∃ r, milliseconds p = some r := by
    simp only [milliseconds, strlen, ha, hb]
    by_cases hma : 'm' = a
    · exact ⟨decide ('s' = b), by simp only [hma, if_true]⟩
    · exact ⟨false, by simp only [hma, if_false]⟩
  obtain ⟨r, hr⟩ := hm
  cases r with
  | true => exact ⟨atoi p.str, by simp only [parseInterval, hr]⟩
  | false => exact ⟨wrapInt32 (atoi p.str * 1000), by simp only [parseInterval, hr]⟩

/-- The option loop stops with an exit or with undefined behaviour, never
by entering the execution loop. -/
theorem optLoop_error_ne_loop (evs : List (Option Event)) (cfg c : Config) (v : CStr) :
    optLoop cfg evs ≠ .error (.loop c v) := by
  induction evs generalizing cfg with
  | nil => simp [optLoop]
  | cons e evs ih =>
    cases e with
    | none => simp [optLoop]
    | some ev =>
      simp only [optLoop]
      by_cases hh : ev.ch = 'h'
      · simp [hh]
      by_cases hq : ev.ch = 'q'
      · simpa [hq] using ih _
      by_cases hx : ev.ch = 'x'
      · simpa [hx] using ih _
      by_cases hv : ev.ch = 'v'
      · simp [hv]
      by_cases hi : ev.ch = 'i'
      · simp only [hi, if_true]
        cases ho : ev.optarg with
        | none => simp
        | some p =>
          simp only []
          cases hp : parseInterval p with
          | none => simp
          | some n => simpa using ih _
      · simp [hh, hq, hx, hv, hi]

/-- The option loop leaves in `interval` the value of the interval
expression for the argument of the last `-i` or `--interval`, and the
initial value when there is none. -/
theorem optLoop_interval (evs : List (Option Event)) (cfg cfg2 : Config)
    (h : optLoop cfg evs = .ok cfg2) :
    (lastIntervalArg evs = none → cfg2.interval = cfg.interval) ∧
      (∀ p, lastIntervalArg evs = some p → parseInterval p = some cfg2.interval) := by
  induction evs generalizing cfg with
  | nil =>
    simp only [optLoop, Except.ok.injEq] at h
    simp [lastIntervalArg, h]
  | cons e evs ih =>
    cases e with
    | none => simp [optLoop] at h
    | some ev =>
      simp only [optLoop] at h
      by_cases hh : ev.ch = 'h'
      · simp [hh] at h
      by_cases hq : ev.ch = 'q'
      · simp only [hq, if_true] at h
        have hi : ¬ (ev.ch = 'i') := by rw [hq]; decide
        have := ih _ (by simpa using h)
        cases hl : lastIntervalArg evs with
        | none => simpa [lastIntervalArg, hl, hi] using this.1 hl
        | some p0 => simpa [lastIntervalArg, hl] using this.2 p0 hl
      by_cases hx : ev.ch = 'x'
      · simp only [hx, if_true] at h
        have hi : ¬ (ev.ch = 'i') := by rw [hx]; decide
        have := ih _ (by simpa using h)
        cases hl : lastIntervalArg evs with
        | none => simpa [lastIntervalArg, hl, hi] using this.1 hl
        | some p0 => simpa [lastIntervalArg, hl] using this.2 p0 hl
      by_cases hv : ev.ch = 'v'
      · simp [hv] at h
      by_cases hi : ev.ch = 'i'
      · simp only [hi, if_true] at h
        cases ho : ev.optarg with
        | none => simp [ho] at h
        | some p =>
          cases hp : parseInterval p with
          | none => simp [ho, hp] at h
          | some n =>
            simp only [ho, hp] at h
            have := ih _ (by simpa using h)
            cases hl : lastIntervalArg evs with
            | none =>
              have h1 := this.1 hl
              simp only [lastIntervalArg, hl, hi, if_true, ho]
              simp only [reduceCtorEq, false_implies, Option.some.injEq, true_and]
              intro p1 hp1
              rw [← hp1, hp, h1]
            | some p0 => simpa [lastIntervalArg, hl] using this.2 p0 hl
      · simp [hh, hq, hx, hv, hi] at h

theorem lastIntervalArg_none (evs : List (Option Event))
    (h : ∀ ev, some ev ∈ evs → ev.ch ≠ 'i') : lastIntervalArg evs = none := by
  induction evs with
  | nil => rfl
  | cons e evs ih =>
    have h1 := ih (fun ev he => h ev (by simp [he]))
    cases e with
    | none => simp [lastIntervalArg, h1]
    | some ev =>
      have h2 := h ev (by simp)
      simp [lastIntervalArg, h1, h2]

/-- An accepted command line: the option loop ran through with the accepted
settings, and the operands are those `getopt_long` left, at least one. -/
theorem parseArgs_accepted (args : List CStr) (cfg : Config) (operands : List CStr)
    (h : parseArgs args = .accepted cfg operands) :
    optLoop ⟨DEFAULT_INTERVAL, false, false⟩ (getoptAll args).1 = .ok cfg ∧
      operands = (getoptAll args).2 ∧ operands ≠ [] := by
  unfold parseArgs at h
  by_cases ha : args = []
  · simp [ha] at h
  · simp only [ha, if_false] at h
    cases ho : optLoop ⟨DEFAULT_INTERVAL, false, false⟩ (getoptAll args).1 with
    | error r => simp [ho] at h
    | ok c =>
      simp only [ho] at h
      by_cases hops : (getoptAll args).2 = []
      · simp [hops] at h
      · simp only [hops, if_false, Parsed.accepted.injEq] at h
        exact ⟨by rw [h.1], h.2.symm, by rw [← h.2]; exact hops⟩

/-- The execution loop is entered only on an accepted command line, with the
accepted settings. -/
theorem main_loop_accepted (args : List CStr) (cfg : Config) (val : CStr)
    (h : main args = .loop cfg val) :
    ∃ operands, parseArgs args = .accepted cfg operands := by
  unfold main at h
  cases hp : parseArgs args with
  | refused r =>
    simp only [hp] at h
    unfold parseArgs at hp
    by_cases ha : args = []
    · simp [ha] at hp
      rw [← hp] at h
      simp at h
    · simp only [ha, if_false] at hp
      cases ho : optLoop ⟨DEFAULT_INTERVAL, false, false⟩ (getoptAll args).1 with
      | error r2 =>
        simp only [ho, Parsed.refused.injEq] at hp
        rw [hp, h] at ho
        exact absurd ho (optLoop_error_ne_loop _ _ _ _)
      | ok c =>
        simp only [ho] at hp
        by_cases hops : (getoptAll args).2 = []
        · simp only [hops, if_true, Parsed.refused.injEq] at hp
          rw [← hp] at h
          simp at h
        · simp [hops] at hp
  | accepted c operands =>
    simp only [hp] at h
    cases hj : join operands operands.length [' '] with
    | none => simp [hj] at h
    | some v =>
      simp only [hj, MainResult.loop.injEq] at h
      exact ⟨operands, by rw [h.1]⟩

/-- C8, as amended: on every command line that option parsing accepts, the
interval handed to the execution loop is 1000 when no `-i` or `--interval`
option is given; otherwise it is the value of the interval expression for
the argument of the last such option, which is greater than 0 when that
argument is a decimal number `n ≥ 1` with `n * 1000` inside the `int` range,
or such a number `n` inside the `int` range followed by `ms`.  Whenever
`main` enters the loop, it does so with these settings. -/
theorem interval_at_loop (args : List CStr) (cfg : Config) (operands : List CStr)
    (h : parseArgs args = .accepted cfg operands) :
    ((∀ ev, some ev ∈ (getoptAll args).1 → ev.ch ≠ 'i') → cfg.interval = 1000) ∧
      (∀ p, lastIntervalArg (getoptAll args).1 = some p →
        parseInterval p = some cfg.interval ∧
          (∀ d, d ≠ [] → allDigits d = true → 0 < decimalValue d →
            (p.str = d ∧ (decimalValue d : Int) * 1000 ≤ INT_MAX) ∨
              (p.str = d ++ "ms".toList ∧ (decimalValue d : Int) ≤ INT_MAX) →
            0 < cfg.interval)) ∧
      (∀ c val, main args = .loop c val → c = cfg) := by
  have hopt := optLoop_interval _ _ _ (parseArgs_accepted args cfg operands h).1
  refine ⟨?_, ?_, ?_⟩
  · intro hno
    exact hopt.1 (lastIntervalArg_none _ hno)
  · intro p hp
    have hpi := hopt.2 p hp
    refine ⟨hpi, ?_⟩
    intro d hne hd hpos hcase
    have hposz : (0 : Int) < (decimalValue d : Int) := by exact_mod_cast hpos
    rcases hcase with ⟨hstr, hfit⟩ | ⟨hstr, hfit⟩
    · by_cases hmem : 2 ≤ d.length + p.before.length
      · have hv : intValue [] d = decimalValue d := by simp [intValue]
        have := parseInterval_seconds_form p.before [] d (by decide) hne hd hmem
          (by rw [hv]; simp only [INT_MIN]; omega) (by rw [hv]; exact hfit)
        rw [hv, List.nil_append] at this
        have hp2 : parseInterval p = some ((decimalValue d : Int) * 1000) := by
          rw [← this, ← hstr]
        rw [hpi] at hp2
        have : cfg.interval = (decimalValue d : Int) * 1000 := by simpa using hp2
        rw [this]; omega
      · have hlen : 0 < d.length := List.length_pos.mpr hne
        have hb : p.before = [] := List.length_eq_zero.mp (by omega)
        have hd1 : d.length = 1 := by omega
        have hread : p.read ((strlen p.str : Int) - 2) = none := by
          simp [StrPtr.read, strlen, hstr, hd1, hb]
        simp [parseInterval, milliseconds, hread] at hpi
    · have hv : intValue [] d = decimalValue d := by simp [intValue]
      have := parseInterval_ms_form p.before [] d (by decide) hne hd
        (by rw [hv]; simp only [INT_MIN]; omega) (by rw [hv]; exact hfit)
      rw [hv, List.nil_append] at this
      have hms : "ms".toList = ['m', 's'] := rfl
      rw [hms] at hstr
      have hp2 : parseInterval p = some (decimalValue d : Int) := by
        rw [← this, ← hstr]
      rw [hpi] at hp2
      have : cfg.interval = (decimalValue d : Int) := by simpa using hp2
      rw [this]; exact hposz
  · intro c val hmain
    obtain ⟨ops, hacc⟩ := main_loop_accepted args c val hmain
    rw [h] at hacc
    simp only [Parsed.accepted.injEq] at hacc
    exact hacc.1.symm

/-- The command line `-i 5 ls`: the interval is 5000. -/
theorem interval_at_loop_witness :
    parseInterval ⟨['\x00', 'i', '-'], "5".toList⟩ = some 5000 ∧ (0 : Int) < 5000 :=
  ⟨((interval_at_loop ["-i".toList, "5".toList, "ls".toList] ⟨5000, false, false⟩
      ["ls".toList] (by decide)).2.1 ⟨['\x00', 'i', '-'], "5".toList⟩ (by decide)).1,
    ((interval_at_loop ["-i".toList, "5".toList, "ls".toList] ⟨5000, false, false⟩
      ["ls".toList] (by decide)).2.1 ⟨['\x00', 'i', '-'], "5".toList⟩ (by decide)).2
      "5".toList (by decide) (by decide) (by decide) (Or.inl ⟨rfl, by decide⟩)⟩

/-- C8, as stated, fails: the command line `-i 0 w` is accepted and reaches
the execution loop with the interval 0, which is not greater than 0. -/
theorem interval_zero_reaches_loop :
    parseArgs ["-i".toList, "0".toList, "w".toList] =
        .accepted ⟨0, false, false⟩ ["w".toList] ∧
      main ["-i".toList, "0".toList, "w".toList] = .loop ⟨0, false, false⟩ "w".toList ∧
      ¬ (0 < (⟨0, false, false⟩ : Config).interval) := by
  decide

/-- What `getopt_long` makes of a flag without argument at the head of the
command line. -/
theorem getoptAll_plain_flag (a : CStr) (rest : List CStr)
    (ha : a = "-q".toList ∨ a = "-x".toList ∨ a = "--quiet".toList ∨ a = "--halt".toList) :
    ∃ c, (c = 'q' ∨ c = 'x') ∧
      getoptAll (a :: rest) =
        (some ⟨c, none⟩ :: (getoptAll rest).1, (getoptAll rest).2) := by
  rcases ha with h | h | h | h
  · subst h; exact ⟨'q', Or.inl rfl, by cases rest <;> rfl⟩
  · subst h; exact ⟨'x', Or.inr rfl, by cases rest <;> rfl⟩
  · subst h; exact ⟨'q', Or.inl rfl, by cases rest <;> rfl⟩
  · subst h; exact ⟨'x', Or.inr rfl, by cases rest <;> rfl⟩

/-- What `getopt_long` makes of `-i <n>` or `--interval <n>` at the head of
the command line. -/
theorem getoptAll_interval_flag (a n : CStr) (rest : List CStr)
    (ha : a = "-i".toList ∨ a = "--interval".toList) :
    ∃ before, 2 ≤ before.length ∧
      getoptAll (a :: n :: rest) =
        (some ⟨'i', some ⟨before, n⟩⟩ :: (getoptAll rest).1, (getoptAll rest).2) := by
  rcases ha with h | h
  · subst h; exact ⟨['\x00', 'i', '-'], by decide, rfl⟩
  · subst h; exact ⟨'\x00' :: ("--interval".toList).reverse, by decide, rfl⟩

/-- A command line of flags only: the option loop runs through and no
operand is left. -/
theorem onlyFlags_parse (n : Nat) : ∀ (args : List CStr), args.length ≤ n →
    onlyFlags args = true → ∀ cfg : Config,
      (∃ cfg2, optLoop cfg (getoptAll args).1 = .ok cfg2) ∧ (getoptAll args).2 = [] := by
  induction n with
  | zero =>
    intro args hlen _ cfg
    have : args = [] := List.length_eq_zero.mp (by omega)
    subst this
    exact ⟨⟨cfg, rfl⟩, rfl⟩
  | succ n ih =>
    intro args hlen hflags cfg
    cases args with
    | nil => exact ⟨⟨cfg, rfl⟩, rfl⟩
    | cons a rest =>
      unfold onlyFlags at hflags
      by_cases h1 : a = "-q".toList ∨ a = "-x".toList ∨ a = "--quiet".toList ∨
          a = "--halt".toList
      · simp only [h1, if_true] at hflags
        obtain ⟨c, hc, hget⟩ := getoptAll_plain_flag a rest h1
        have hlen2 : rest.length ≤ n := by simp at hlen; omega
        rw [hget]
        rcases hc with hc | hc
        · subst hc
          obtain ⟨⟨cfg2, h2⟩, h3⟩ := ih rest hlen2 hflags { cfg with quiet := true }
          exact ⟨⟨cfg2, by simp only [optLoop]; simpa using h2⟩, h3⟩
        · subst hc
          obtain ⟨⟨cfg2, h2⟩, h3⟩ := ih rest hlen2 hflags { cfg with halt := true }
          exact ⟨⟨cfg2, by simp only [optLoop]; simpa using h2⟩, h3⟩
      · simp only [h1, if_false] at hflags
        by_cases h2 : a = "-i".toList ∨ a = "--interval".toList
        · simp only [h2, if_true] at hflags
          cases rest with
          | nil => simp at hflags
          | cons v rest2 =>
            simp only at hflags
            obtain ⟨before, hb, hget⟩ := getoptAll_interval_flag a v rest2 h2
            obtain ⟨m, hm⟩ := parseInterval_defined ⟨before, v⟩ hb
            have hlen2 : rest2.length ≤ n := by simp at hlen; omega
            obtain ⟨⟨cfg2, h3⟩, h4⟩ := ih rest2 hlen2 hflags { cfg with interval := m }
            rw [hget]
            exact ⟨⟨cfg2, by simp only [optLoop]; simpa [hm] using h3⟩, h4⟩
        · simp only [h2, if_false] at hflags
          exact absurd hflags (by decide)

/-- C5: a command line without arguments, or one made of the flags `-q`,
`-x`, `-i <n>`, `--quiet`, `--halt`, `--interval <n>` only, makes the
program exit with status 1 before the execution loop: whatever `fork` and
`waitpid` would report, no child is created and no other action of the loop
takes place. -/
theorem no_command_exits_1 (args : List CStr) (script : List Outcome)
    (h : args = [] ∨ onlyFlags args = true) :
    ∃ msg, watch args script = (.exit 1 msg, []) := by
  by_cases ha : args = []
  · subst ha
    exact ⟨.usage, rfl⟩
  · have hflags : onlyFlags args = true := h.resolve_left ha
    obtain ⟨⟨cfg2, h2⟩, h3⟩ := onlyFlags_parse args.length args (Nat.le_refl _) hflags
      ⟨DEFAULT_INTERVAL, false, false⟩
    have hmain : main args = .exit 1 .cmdRequired := by
      simp [main, parseArgs, ha, h2, h3]
    exact ⟨.cmdRequired, by simp [watch, hmain]⟩

/-- The command line `-q --halt -i 3`, with a script in which children would
succeed. -/
theorem no_command_exits_1_witness :
    ∃ msg, watch ["-q".toList, "--halt".toList, "-i".toList, "3".toList] [.waited 0] =
      (.exit 1 msg, []) :=
  no_command_exits_1 ["-q".toList, "--halt".toList, "-i".toList, "3".toList] [.waited 0]
    (Or.inr (by decide))

end Watch
